import Mathlib

set_option autoImplicit false
set_option maxHeartbeats 1000000

/-!
Shallow embedding of the multilevel log-reduction / context-budgeting pipeline
of `src/app.py` (`level1_extract_critical_content`, `level2_deduplicate_and_prioritize`,
`level3_compress_and_summarize`, `level4_final_optimization`, `multilevel_chunk_logs`).

Python strings are modelled as lists of characters (`PyStr`); all string
operations used by the source (`split('\n')`, `strip`, `lower`, slicing,
`join`, substring test) are given explicit executable definitions with
Python semantics.  The regular expressions of the source are embedded by a
small executable matcher (`RE`, `reEnds`) covering exactly the constructs
the source patterns use: literals (case-sensitive and `(?i)`), character
classes, `\s+`-style repetition, `.*`, alternation, `\b` and `$`.
-/

abbrev PyStr := List Char

def pys (s : String) : PyStr := s.toList

/-- ASCII part of Python's `str` whitespace, as used by `str.strip()` and `\s`. -/
def pyIsSpace (c : Char) : Bool :=
  c = ' ' || c = '\t' || c = '\n' || c = '\r' || c = '\x0b' || c = '\x0c'

def lstrip (s : PyStr) : PyStr := s.dropWhile pyIsSpace

def rstrip (s : PyStr) : PyStr := (s.reverse.dropWhile pyIsSpace).reverse

/-- Python `s.strip()`. -/
def strip (s : PyStr) : PyStr := rstrip (lstrip s)

/-- Python `s.lower()` (ASCII). -/
def lowerStr (s : PyStr) : PyStr := s.map Char.toLower

/-- Python `s.split('\n')`: no collapsing of separators, `''.split('\n') = ['']`. -/
def splitNL : PyStr → List PyStr
  | [] => [[]]
  | c :: r =>
    if c = '\n' then [] :: splitNL r
    else
      match splitNL r with
      | [] => [[c]]
      | h :: t => (c :: h) :: t

/-- Python `sep.join(xs)`. -/
def joinSep (sep : PyStr) : List PyStr → PyStr
  | [] => []
  | [x] => x
  | x :: y :: t => x ++ sep ++ joinSep sep (y :: t)

def joinNL (xs : List PyStr) : PyStr := joinSep (pys "\n") xs

/-- Python `s[-n:]`; note that `s[-0:]` is the whole string. -/
def pySliceLast (n : Nat) (s : PyStr) : PyStr :=
  if n = 0 then s else s.drop (s.length - n)

/-- Python substring containment `pat in s`. -/
def containsSub (pat s : PyStr) : Bool :=
  s.tails.any (fun t => pat.isPrefixOf t)

/-! ### Regular-expression fragment used by app.py -/

/-- Regex word character `\w` (ASCII), for `\b` boundaries. -/
def isWordChar (c : Char) : Bool := c.isAlphanum || c = '_'

/-- The fragment of Python regular expressions that the source patterns use. -/
inductive RE where
  | lit     : PyStr → RE             -- case-sensitive literal
  | litCI   : PyStr → RE             -- literal under the (?i) flag
  | cls     : (Char → Bool) → RE     -- one character of a class
  | starCls : (Char → Bool) → RE     -- zero or more characters of a class
  | seq     : RE → RE → RE
  | alt     : RE → RE → RE
  | bnd     : RE                     -- \b
  | eol     : RE                     -- $

def wordCharAt (s : PyStr) (i : Nat) : Bool :=
  match s[i]? with
  | some c => isWordChar c
  | none => false

/-- Whether a `\b` word boundary sits at offset `i` of `s`. -/
def atBoundary (s : PyStr) (i : Nat) : Bool :=
  if i = 0 then wordCharAt s 0
  else wordCharAt s (i - 1) != wordCharAt s i

/-- All offsets at which a match of the regex starting at offset `i` can end. -/
def reEnds (s : PyStr) : RE → Nat → List Nat
  | .lit w, i => if (s.drop i).take w.length = w then [i + w.length] else []
  | .litCI w, i =>
      if lowerStr ((s.drop i).take w.length) = lowerStr w then [i + w.length] else []
  | .cls p, i =>
      match (s.drop i).head? with
      | some c => if p c then [i + 1] else []
      | none => []
  | .starCls p, i => (List.range (((s.drop i).takeWhile p).length + 1)).map (i + ·)
  | .seq a b, i => (reEnds s a i).flatMap (fun j => reEnds s b j)
  | .alt a b, i => reEnds s a i ++ reEnds s b i
  | .bnd, i => if atBoundary s i then [i] else []
  | .eol, i => if i = s.length then [i] else []

/-- Python `re.search(r, s) is not None`. -/
def reSearch (r : RE) (s : PyStr) : Bool :=
  (List.range (s.length + 1)).any (fun i => !(reEnds s r i).isEmpty)

/-- Python `re.match(r, s) is not None` (anchored at the start). -/
def reMatch (r : RE) (s : PyStr) : Bool := !(reEnds s r 0).isEmpty

def reSeqs : List RE → RE
  | [] => .lit []
  | [r] => r
  | r :: s :: t => .seq r (reSeqs (s :: t))

def reAlts (r : RE) (rs : List RE) : RE := rs.foldl .alt r

/-- `\s+` -/
def wsPlus : RE := .seq (.cls pyIsSpace) (.starCls pyIsSpace)

/-- `.*` (no DOTALL: never crosses a newline) -/
def dotStar : RE := .starCls (fun c => c != '\n')

/-- `\d` -/
def reDigit : RE := .cls Char.isDigit

/-- `(?i)\b(w0|w1|...)\b` for plain-word alternatives. -/
def wordPatCI (w : String) (ws : List String) : RE :=
  .seq .bnd (.seq (reAlts (.litCI (pys w)) (ws.map (fun x => .litCI (pys x)))) .bnd)

/-! ### Static pattern tables of the source -/

/-- `semantic_error_patterns` of `multilevel_chunk_logs` (src/app.py). -/
def semantic_error_patterns : List RE :=
  [ wordPatCI "error" ["ERROR", "fatal", "FATAL", "critical", "CRITICAL", "panic", "PANIC"],
    wordPatCI "failed" ["failure", "timeout", "crashed", "crash", "abort"],
    .seq .bnd (.seq (reAlts (.litCI (pys "exception"))
      [.litCI (pys "Exception"), .litCI (pys "traceback"), .litCI (pys "Traceback"),
       reSeqs [.litCI (pys "stack"), wsPlus, .litCI (pys "trace")]]) .bnd),
    .seq .bnd (.seq (reAlts (reSeqs [.litCI (pys "pod"), wsPlus, dotStar, .litCI (pys "fail")])
      [reSeqs [.litCI (pys "pod"), wsPlus, dotStar, .litCI (pys "error")],
       .litCI (pys "CrashLoopBackOff"), .litCI (pys "NotReady"), .litCI (pys "Pending")]) .bnd),
    .seq .bnd (.seq (reAlts (reSeqs [.litCI (pys "mount"), dotStar, .litCI (pys "fail")])
      [reSeqs [.litCI (pys "volume"), dotStar, .litCI (pys "error")],
       reSeqs [.litCI (pys "storage"), dotStar, .litCI (pys "error")],
       reSeqs [.litCI (pys "iops"), dotStar, .litCI (pys "low")],
       reSeqs [.litCI (pys "latency"), dotStar, .litCI (pys "high")]]) .bnd),
    .seq .bnd (.seq (reAlts (reSeqs [.litCI (pys "out"), wsPlus, .litCI (pys "of"), wsPlus, .litCI (pys "memory")])
      [.litCI (pys "OOM"), .litCI (pys "oomkilled"),
       reSeqs [.litCI (pys "memory"), wsPlus, .litCI (pys "limit")]]) .bnd),
    .seq .bnd (.seq (reAlts (reSeqs [.litCI (pys "connection"), wsPlus,
        reAlts (.litCI (pys "refused")) [.litCI (pys "timeout")]])
      [reSeqs [.litCI (pys "permission"), wsPlus, .litCI (pys "denied")]]) .bnd) ]

/-- `error_keywords` of `level1_extract_critical_content`. -/
def error_keywords : List PyStr :=
  [pys "error", pys "failed", pys "fatal", pys "critical", pys "exception", pys "traceback",
   pys "crash", pys "timeout", pys "denied", pys "oom", pys "notready", pys "panic", pys "abort"]

/-- `priority_patterns` of `level2_deduplicate_and_prioritize`. -/
def priority_patterns : List (RE × Nat) :=
  [ (wordPatCI "critical" ["CRITICAL", "fatal", "FATAL", "panic", "PANIC", "abort", "ABORT"], 10),
    (wordPatCI "error" ["ERROR", "exception", "Exception", "traceback", "Traceback"], 7),
    (wordPatCI "failed" ["failure", "timeout", "crashed", "crash"], 5),
    (wordPatCI "warning" ["WARN", "warn"], 3) ]

/-- `noise_patterns` of `level4_final_optimization` (case-sensitive, used with `re.match`). -/
def noise_patterns : List RE :=
  [ .seq (.starCls pyIsSpace) .eol,
    reSeqs [reDigit, reDigit, reDigit, reDigit, .lit (pys "-"),
            reDigit, reDigit, .lit (pys "-"), reDigit, reDigit],
    reSeqs [.lit (pys "DEBUG"), .starCls pyIsSpace, .lit (pys ":")],
    reSeqs [.starCls pyIsSpace, .lit (pys "."), .starCls pyIsSpace, .eol] ]

/-! ### Level 1: critical-content extraction -/

def lineIsCritical (semantic_patterns : List RE) (line : PyStr) : Bool :=
  semantic_patterns.any (fun r => reSearch r line) ||
    error_keywords.any (fun k => containsSub k (lowerStr line))

/-- `level1_extract_critical_content(lines, semantic_patterns)`. -/
def level1_extract_critical_content (lines : List PyStr) (semantic_patterns : List RE) :
    List (Nat × PyStr) :=
  lines.enum.filterMap (fun p =>
    if lineIsCritical semantic_patterns p.2 then
      some (p.1, joinNL ((lines.drop (p.1 - 2)).take (min lines.length (p.1 + 3) - (p.1 - 2))))
    else none)

/-! ### Level 2: deduplication and prioritization -/

/-- The severity score of a context block: the summed weights of all matching rules. -/
def scoreContent (content : PyStr) : Nat :=
  priority_patterns.foldl (fun acc pw => if reSearch pw.1 content then acc + pw.2 else acc) 0

/-- The dedup-and-score loop of `level2_deduplicate_and_prioritize`:
`seen_content` is the set of first-200-char prefixes seen so far. -/
def scoredLoop (seen : List PyStr) : List (Nat × PyStr) → List (Nat × Nat × PyStr)
  | [] => []
  | (idx, content) :: rest =>
    let key := (strip content).take 200
    if key ∈ seen then scoredLoop seen rest
    else (scoreContent content, idx, content) :: scoredLoop (key :: seen) rest

/-- Stable insertion sort; Python `list.sort` is a stable sort, so for the total
preorders used here it computes the same list. -/
def pyInsert {α : Type} (le : α → α → Bool) (x : α) : List α → List α
  | [] => [x]
  | y :: ys => if le x y then x :: y :: ys else y :: pyInsert le x ys

def pySort {α : Type} (le : α → α → Bool) : List α → List α
  | [] => []
  | x :: xs => pyInsert le x (pySort le xs)

/-- `key=lambda x: (-x[0], x[1])`: ascending in the lexicographic order on `(-score, idx)`. -/
def pyLe (a b : Nat × Nat × PyStr) : Bool :=
  decide ((-(a.1 : Int) < -(b.1 : Int)) ∨ (-(a.1 : Int) = -(b.1 : Int) ∧ a.2.1 ≤ b.2.1))

/-- `level2_deduplicate_and_prioritize(critical_lines)`. -/
def level2_deduplicate_and_prioritize (critical_lines : List (Nat × PyStr)) : List PyStr :=
  if critical_lines = [] then []
  else ((pySort pyLe (scoredLoop [] critical_lines)).take 20).map (fun t => t.2.2)

/-! ### Level 3: compression -/

/-- Inner loop of `level3_compress_and_summarize` over the lines of one context;
returns the final `seen_lines` together with the lines appended to `unique_lines`. -/
def l3_inner (seen : List PyStr) : List PyStr → (List PyStr × List PyStr)
  | [] => (seen, [])
  | line :: rest =>
    let ls := strip line
    if ls ≠ [] ∧ 10 < ls.length then
      let h := (lowerStr ls).take 100
      if h ∈ seen then l3_inner seen rest
      else
        let r := l3_inner (h :: seen) rest
        (r.1, ls :: r.2)
    else l3_inner seen rest

/-- Outer loop of `level3_compress_and_summarize` over the contexts. -/
def l3_outer (seen : List PyStr) : List PyStr → (List PyStr × List PyStr)
  | [] => (seen, [])
  | c :: cs =>
    let r1 := l3_inner seen (splitNL c)
    let r2 := l3_outer r1.1 cs
    (r2.1, r1.2 ++ r2.2)

/-- The `unique_lines` list computed by `level3_compress_and_summarize`. -/
def uniqueLines (content_list : List PyStr) : List PyStr :=
  (l3_outer [] content_list).2

/-- `level3_compress_and_summarize(content_list, max_length)`.
`int(max_length * 0.6)` and `int(max_length * 0.4)` evaluate, for the integer
magnitudes reachable here, to the floor divisions `6*n/10` and `4*n/10`. -/
def level3_compress_and_summarize (content_list : List PyStr) (max_length : Nat) : PyStr :=
  if content_list = [] then []
  else
    let compressed := joinNL (uniqueLines content_list)
    if max_length < compressed.length then
      compressed.take ((6 * max_length) / 10) ++ pys "\n... [compressed] ...\n" ++
        pySliceLast ((4 * max_length) / 10) compressed
    else compressed

/-! ### Level 4: final optimization -/

/-- The filtering loop of `level4_final_optimization`, with its `break` once the
accumulated length reaches the target. -/
def l4_loop (target : Nat) (acc : List PyStr) : List PyStr → List PyStr
  | [] => acc
  | line :: rest =>
    let ls := strip line
    if ls = [] then l4_loop target acc rest
    else
      let acc2 := if noise_patterns.any (fun r => reMatch r ls) then acc else acc ++ [ls]
      if target ≤ (joinNL acc2).length then acc2
      else l4_loop target acc2 rest

/-- `level4_final_optimization(content, target_chars)`. -/
def level4_final_optimization (content : PyStr) (target_chars : Nat) : PyStr :=
  if content.length ≤ target_chars then content
  else
    let result := joinNL ((l4_loop target_chars [] (splitNL content)).take 50)
    if target_chars < result.length then result.take target_chars ++ pys "..."
    else result

/-! ### Orchestrator -/

/-- A log dictionary; `none` models an absent `'filename'` / `'content'` key. -/
structure Log where
  filename : Option PyStr
  content : Option PyStr
deriving DecidableEq

def check_serena_mcp_available : Bool := true

/-- The `critical_lines` value after the level-1 fallback of `multilevel_chunk_logs`. -/
def stage1Frags (max_chars_per_log : Nat) (content : PyStr) : List (Nat × PyStr) :=
  let critical_lines := level1_extract_critical_content (splitNL content) semantic_error_patterns
  if critical_lines = [] then
    if max_chars_per_log * 2 < content.length then
      [(0, content.take max_chars_per_log),
       ((splitNL content).length, pySliceLast max_chars_per_log content)]
    else [(0, content)]
  else critical_lines

/-- The `prioritized_content` value after the level-2 fallback of `multilevel_chunk_logs`. -/
def stage2Out (max_chars_per_log : Nat) (content : PyStr) : List PyStr :=
  let prioritized := level2_deduplicate_and_prioritize (stage1Frags max_chars_per_log content)
  if prioritized = [] then [content.take (max_chars_per_log * 2)] else prioritized

/-- The `optimized` value of `multilevel_chunk_logs` for one record's content. -/
def optimizedOf (max_chars_per_log : Nat) (content : PyStr) : PyStr :=
  level4_final_optimization
    (level3_compress_and_summarize (stage2Out max_chars_per_log content)
      ((max_chars_per_log * 3) / 2))
    max_chars_per_log

/-- One iteration of the record loop of `multilevel_chunk_logs`: the block this
record appends to `chunked_logs`, if any. -/
def chunkOne (max_chars_per_log : Nat) (log : Log) : Option PyStr :=
  let filename := log.filename.getD (pys "unknown")
  let content := log.content.getD []
  if content = [] ∨ (strip content).length < 10 then none
  else
    let optimized := optimizedOf max_chars_per_log content
    if optimized = [] then none
    else some (pys "=== " ++ filename ++ pys " ===\n" ++ optimized)

/-- `multilevel_chunk_logs(logs, max_chars_per_log, max_logs)`. -/
def multilevel_chunk_logs (logs : List Log) (max_chars_per_log : Nat) (max_logs : Nat) : PyStr :=
  if logs = [] then pys "N/A"
  else
    let chunked_logs := (logs.take max_logs).filterMap (chunkOne max_chars_per_log)
    if chunked_logs = [] then pys "N/A"
    else joinSep (pys "\n\n") chunked_logs

/-! ### Generic first-occurrence deduplication

`dedupAux` is the accumulator ("`seen` set") loop shape the source uses;
`dedupSpec` is the declarative first-occurrence-wins form used by the
specification-side definitions. -/

def dedupAux {α κ : Type} [DecidableEq κ] (key : α → κ) (seen : List κ) : List α → List α
  | [] => []
  | x :: xs =>
    if key x ∈ seen then dedupAux key seen xs
    else x :: dedupAux key (key x :: seen) xs

def dedupSpec {α κ : Type} [DecidableEq κ] (key : α → κ) : List α → List α
  | [] => []
  | x :: xs => x :: dedupSpec key (xs.filter (fun y => decide (key y ≠ key x)))
termination_by l => l.length
decreasing_by
  simp only [List.length_cons]
  exact Nat.lt_succ_of_le (List.length_filter_le _ _)

/-! ### Specification-side form of level 2 (from the spec's words) -/

/-- The dedup key of §4.3: the first 200 characters of each context, stripped. -/
def key200 (f : Nat × PyStr) : PyStr := (strip f.2).take 200

def mkScored (f : Nat × PyStr) : Nat × Nat × PyStr := (scoreContent f.2, f.1, f.2)

/-- "Sort descending by score, ties broken by ascending original index." -/
def specLe (a b : Nat × Nat × PyStr) : Bool :=
  decide (b.1 < a.1 ∨ (a.1 = b.1 ∧ a.2.1 ≤ b.2.1))

/-- §4.3 as written: dedup by stripped 200-char prefix (first occurrence wins),
score survivors, sort descending by score / ascending index, keep the top 20. -/
def level2_spec (critical_lines : List (Nat × PyStr)) : List PyStr :=
  ((pySort specLe ((dedupSpec key200 critical_lines).map mkScored)).take 20).map
    (fun t => t.2.2)
/-! ### Specification-side form of level 3 (from the spec's words) -/

/-- The dedup key of §4.4: the lowercased first 100 characters of a line. -/
def key100 (l : PyStr) : PyStr := (lowerStr l).take 100

/-- §4.4 as written: flatten the contexts into lines, drop lines under 11
characters, dedup the rest by lowercased 100-char prefix (first occurrence
wins, encounter order kept). -/
def specUniqueLines (content_list : List PyStr) : List PyStr :=
  dedupSpec key100
    (((content_list.flatMap splitNL).map strip).filter (fun l => decide (10 < l.length)))

/-- §4.4 as written: join the surviving lines; on overflow keep the first 60%
of the budget, a marker, and the last 40% of the budget. -/
def level3_spec (content_list : List PyStr) (max_length : Nat) : PyStr :=
  let joined := joinNL (specUniqueLines content_list)
  if max_length < joined.length then
    joined.take ((6 * max_length) / 10) ++ pys "\n... [compressed] ...\n" ++
      joined.drop (joined.length - (4 * max_length) / 10)
  else joined

theorem dedupAux_eq {α κ : Type} [DecidableEq κ] (key : α → κ) :
    ∀ (xs : List α) (seen : List κ),
      dedupAux key seen xs = dedupSpec key (xs.filter (fun x => decide (key x ∉ seen))) := by
  intro xs
  induction xs with
  | nil => intro seen; simp [dedupAux, dedupSpec]
  | cons x t ih =>
    intro seen
    by_cases hx : key x ∈ seen
    · rw [show dedupAux key seen (x :: t) = dedupAux key seen t from by
        simp [dedupAux, hx]]
      rw [ih seen]
      congr 1
      simp [List.filter_cons, hx]
    · rw [show dedupAux key seen (x :: t) = x :: dedupAux key (key x :: seen) t from by
        simp [dedupAux, hx]]
      rw [ih (key x :: seen)]
      have hfc : (x :: t).filter (fun y => decide (key y ∉ seen)) =
          x :: t.filter (fun y => decide (key y ∉ seen)) := by
        simp [List.filter_cons, hx]
      rw [hfc, dedupSpec]
      congr 1
      rw [List.filter_filter]
      congr 1
      apply List.filter_congr
      intro y _
      by_cases h1 : key y = key x <;> by_cases h2 : key y ∈ seen <;>
        simp [h1, h2, List.mem_cons]

theorem dedupSpec_covers {α κ : Type} [DecidableEq κ] (key : α → κ) :
    ∀ (xs : List α), ∀ x ∈ xs, ∃ k, k ∈ dedupSpec key xs ∧ key k = key x := by
  intro xs
  induction xs using dedupSpec.induct key with
  | case1 => intro x hx; cases hx
  | case2 y ys ih =>
    intro x hx
    rw [dedupSpec]
    rcases List.mem_cons.mp hx with h | h
    · exact ⟨y, List.mem_cons_self _ _, by rw [h]⟩
    · by_cases hk : key x = key y
      · exact ⟨y, List.mem_cons_self _ _, hk.symm⟩
      · have hmem : x ∈ ys.filter (fun y2 => decide (key y2 ≠ key y)) :=
          List.mem_filter.mpr ⟨h, by simp [hk]⟩
        obtain ⟨k, hk1, hk2⟩ := ih x hmem
        exact ⟨k, List.mem_cons_of_mem _ hk1, hk2⟩


theorem scoredLoop_eq :
    ∀ (xs : List (Nat × PyStr)) (seen : List PyStr),
      scoredLoop seen xs = (dedupAux key200 seen xs).map mkScored := by
  intro xs
  induction xs with
  | nil => intro seen; rfl
  | cons p t ih =>
    intro seen
    obtain ⟨idx, content⟩ := p
    by_cases h : (strip content).take 200 ∈ seen
    · rw [show scoredLoop seen ((idx, content) :: t) = scoredLoop seen t from by
        simp [scoredLoop, h]]
      rw [show dedupAux key200 seen ((idx, content) :: t) = dedupAux key200 seen t from by
        simp [dedupAux, key200, h]]
      exact ih seen
    · rw [show scoredLoop seen ((idx, content) :: t) =
          (scoreContent content, idx, content) :: scoredLoop ((strip content).take 200 :: seen) t from by
        simp [scoredLoop, h]]
      rw [show dedupAux key200 seen ((idx, content) :: t) =
          (idx, content) :: dedupAux key200 (key200 (idx, content) :: seen) t from by
        simp [dedupAux, key200, h]]
      rw [List.map_cons, ih]
      rfl

theorem pyLe_eq_specLe : pyLe = specLe := by
  funext a b
  simp only [pyLe, specLe]
  rw [decide_eq_decide]
  omega

theorem l3_inner_append :
    ∀ (a b : List PyStr) (seen : List PyStr),
      l3_inner seen (a ++ b) =
        ((l3_inner (l3_inner seen a).1 b).1,
         (l3_inner seen a).2 ++ (l3_inner (l3_inner seen a).1 b).2) := by
  intro a
  induction a with
  | nil => intro b seen; simp [l3_inner]
  | cons line t ih =>
    intro b seen
    simp only [List.cons_append, l3_inner]
    by_cases h1 : strip line ≠ [] ∧ 10 < (strip line).length
    · rw [if_pos h1, if_pos h1]
      by_cases h2 : (lowerStr (strip line)).take 100 ∈ seen
      · rw [if_pos h2, if_pos h2]
        exact ih b seen
      · rw [if_neg h2, if_neg h2]
        simp only [List.append_eq]
        rw [ih b ((lowerStr (strip line)).take 100 :: seen)]
        simp
    · rw [if_neg h1, if_neg h1]
      exact ih b seen

theorem l3_outer_eq :
    ∀ (cs : List PyStr) (seen : List PyStr),
      l3_outer seen cs = l3_inner seen (cs.flatMap splitNL) := by
  intro cs
  induction cs with
  | nil => intro seen; simp [l3_outer, l3_inner]
  | cons c t ih =>
    intro seen
    simp only [l3_outer, List.flatMap_cons]
    rw [l3_inner_append, ← ih (l3_inner seen (splitNL c)).1]

theorem l3_inner_eq_dedupAux :
    ∀ (ls : List PyStr) (seen : List PyStr),
      (l3_inner seen ls).2 =
        dedupAux key100 seen ((ls.map strip).filter (fun l => decide (10 < l.length))) := by
  intro ls
  induction ls with
  | nil => intro seen; rfl
  | cons line t ih =>
    intro seen
    simp only [l3_inner, List.map_cons, List.filter_cons]
    by_cases h : 10 < (strip line).length
    · have hne : strip line ≠ [] := by
        intro he
        rw [he] at h
        simp at h
      rw [if_pos ⟨hne, h⟩]
      rw [show (decide (10 < (strip line).length)) = true from by simp [h]]
      simp only [ite_true]
      by_cases h2 : (lowerStr (strip line)).take 100 ∈ seen
      · rw [if_pos h2]
        rw [show dedupAux key100 seen (strip line :: (t.map strip).filter (fun l => decide (10 < l.length))) =
            dedupAux key100 seen ((t.map strip).filter (fun l => decide (10 < l.length))) from by
          simp [dedupAux, key100, h2]]
        exact ih seen
      · rw [if_neg h2]
        rw [show dedupAux key100 seen (strip line :: (t.map strip).filter (fun l => decide (10 < l.length))) =
            strip line :: dedupAux key100 ((lowerStr (strip line)).take 100 :: seen)
              ((t.map strip).filter (fun l => decide (10 < l.length))) from by
          simp [dedupAux, key100, h2]]
        rw [← ih ((lowerStr (strip line)).take 100 :: seen)]
    · rw [if_neg (by simp [h])]
      rw [show (decide (10 < (strip line).length)) = false from by simp [h]]
      simp only [Bool.false_eq_true, ite_false]
      exact ih seen

theorem uniqueLines_eq (cs : List PyStr) : uniqueLines cs = specUniqueLines cs := by
  unfold uniqueLines specUniqueLines
  rw [l3_outer_eq, l3_inner_eq_dedupAux, dedupAux_eq]
  congr 1
  have : ∀ (l : List PyStr),
      l.filter (fun x => decide (key100 x ∉ ([] : List PyStr))) = l := by
    intro l
    induction l with
    | nil => rfl
    | cons x t ih => simp [List.filter_cons, ih]
  exact this _

/-! ### Length bounds -/

theorem joinSep_len_le (sep : PyStr) (L : Nat) :
    ∀ (xs : List PyStr), (∀ x ∈ xs, x.length ≤ L) →
      (joinSep sep xs).length ≤ xs.length * (L + sep.length) := by
  intro xs
  induction xs with
  | nil => intro _; simp [joinSep]
  | cons x t ih =>
    intro h
    cases t with
    | nil =>
      have hx := h x (by simp)
      simp only [joinSep, List.length_cons, List.length_nil]
      omega
    | cons y t2 =>
      have hx := h x (by simp)
      have hr := ih (fun z hz => h z (List.mem_cons_of_mem _ hz))
      simp only [joinSep, List.length_append, List.length_cons] at *
      have hm : (t2.length + 1 + 1) * (L + sep.length) =
          (t2.length + 1) * (L + sep.length) + (L + sep.length) := by ring
      omega

theorem level4_len_le (c : PyStr) (t : Nat) :
    (level4_final_optimization c t).length ≤ t + 3 := by
  by_cases h : c.length ≤ t
  · simp only [level4_final_optimization, if_pos h]
    omega
  · simp only [level4_final_optimization, if_neg h]
    by_cases h2 : t < (joinNL ((l4_loop t [] (splitNL c)).take 50)).length
    · rw [if_pos h2]
      have h3 : (pys "...").length = 3 := rfl
      have h4 : ((joinNL ((l4_loop t [] (splitNL c)).take 50)).take t).length ≤ t := by
        simp [List.length_take]
      simp only [List.length_append]
      omega
    · rw [if_neg h2]
      omega

theorem optimizedOf_le (b : Nat) (ct : PyStr) : (optimizedOf b ct).length ≤ b + 3 :=
  level4_len_le _ _

theorem chunkOne_len (b : Nat) (log : Log) (s : PyStr) (h : chunkOne b log = some s) :
    s.length ≤ (log.filename.getD (pys "unknown")).length + 9 + (b + 3) := by
  unfold chunkOne at h
  by_cases h1 : log.content.getD [] = [] ∨ (strip (log.content.getD [])).length < 10
  · simp [h1] at h
  · simp only [if_neg h1] at h
    by_cases h2 : optimizedOf b (log.content.getD []) = []
    · simp [h2] at h
    · simp only [h2, if_neg, ite_false, Option.some.injEq] at h
      subst h
      have ho := optimizedOf_le b (log.content.getD [])
      have h4 : (pys "=== ").length = 4 := rfl
      have h5 : (pys " ===\n").length = 5 := rfl
      simp only [List.length_append]
      omega

/-! ### Score as a sum -/

theorem foldl_score_eq (content : PyStr) :
    ∀ (ps : List (RE × Nat)) (acc : Nat),
      ps.foldl (fun a pw => if reSearch pw.1 content then a + pw.2 else a) acc =
        acc + (ps.map (fun pw => if reSearch pw.1 content then pw.2 else 0)).sum := by
  intro ps
  induction ps with
  | nil => intro acc; simp
  | cons p t ih =>
    intro acc
    simp only [List.foldl_cons, List.map_cons, List.sum_cons]
    by_cases h : reSearch p.1 content
    · rw [if_pos h, if_pos h, ih]
      omega
    · rw [if_neg h, if_neg h, ih]
      omega

theorem filter_not_mem_nil {α κ : Type} [DecidableEq κ] (key : α → κ) (l : List α) :
    l.filter (fun x => decide (key x ∉ ([] : List κ))) = l := by
  induction l with
  | nil => rfl
  | cons x t ih => simp [List.filter_cons, ih]

/-! ### Claim theorems -/

/-- C6: for every list of `(index, context_text)` fragments,
`level2_deduplicate_and_prioritize` drops every fragment whose stripped first
200 characters equal those of an earlier fragment (first occurrence wins),
sorts the survivors descending by severity score with ties broken by ascending
original index, and returns at most the top 20 context texts in that order —
i.e. it computes exactly the specification-side `level2_spec`. -/
theorem c6_level2_refines_spec :
    ∀ (critical_lines : List (Nat × PyStr)),
      level2_deduplicate_and_prioritize critical_lines = level2_spec critical_lines := by
  intro cl
  by_cases h : cl = []
  · subst h
    have hd : dedupSpec key200 ([] : List (Nat × PyStr)) = [] := by rw [dedupSpec]
    simp [level2_deduplicate_and_prioritize, level2_spec, hd, pySort]
  · simp only [level2_deduplicate_and_prioritize, if_neg h, level2_spec]
    rw [scoredLoop_eq, dedupAux_eq, pyLe_eq_specLe, filter_not_mem_nil]

/-- C8: the severity score of a fragment is the sum of the weights of all
`(pattern, weight)` rules of `priority_patterns` whose pattern matches the
fragment; scoring does not stop at the first matching rule, and a fragment
matching no rule scores 0 (the empty sum). -/
theorem c8_score_is_rule_sum :
    ∀ (content : PyStr),
      scoreContent content =
        (priority_patterns.map (fun pw => if reSearch pw.1 content then pw.2 else 0)).sum := by
  intro content
  unfold scoreContent
  rw [foldl_score_eq]
  simp

/-- C7 counterexample: at `max_length = 2` the claimed "last 40% of max_length
characters" is 0 characters, but Python's `compressed[-0:]` is the whole
joined string, so the compressor's output differs from the claimed one. -/
theorem c7_counterexample :
    level3_compress_and_summarize [pys "abcdefghijkl"] 2 ≠
      level3_spec [pys "abcdefghijkl"] 2 := by
  have h2 : level3_spec [pys "abcdefghijkl"] 2 = pys "a\n... [compressed] ...\n" := by
    simp only [level3_spec, ← uniqueLines_eq]
    decide
  rw [h2]
  decide

/-- C7 (amended): for every list of context strings and every `max_length`
with `⌊0.4·max_length⌋ > 0`, the compressor flattens the contexts into lines,
drops lines under 11 characters, dedups the rest by lowercased 100-char
prefix (first occurrence wins), joins with newlines, and on overflow returns
the first `⌊0.6·max_length⌋` characters, the separator marker and the last
`⌊0.4·max_length⌋` characters of the joined string; when `⌊0.4·max_length⌋ = 0`
the Python slice `[-0:]` makes the "last part" the entire joined string. -/
theorem c7_amended_compressor :
    ∀ (content_list : List PyStr) (max_length : Nat), 0 < (4 * max_length) / 10 →
      level3_compress_and_summarize content_list max_length =
        level3_spec content_list max_length := by
  intro cs maxLen h4
  by_cases hc : cs = []
  · subst hc
    simp [level3_compress_and_summarize, level3_spec, specUniqueLines, dedupSpec,
      joinNL, joinSep]
  · simp only [level3_compress_and_summarize, if_neg hc, level3_spec, ← uniqueLines_eq]
    by_cases hover : maxLen < (joinNL (uniqueLines cs)).length
    · rw [if_pos hover, if_pos hover]
      have hk : (4 * maxLen) / 10 ≠ 0 := by omega
      simp [pySliceLast, hk]
    · rw [if_neg hover, if_neg hover]

theorem c7_witness :
    0 < (4 * 10) / 10 ∧
      level3_compress_and_summarize [pys "hello there friend"] 10 =
        level3_spec [pys "hello there friend"] 10 :=
  ⟨by decide, c7_amended_compressor [pys "hello there friend"] 10 (by decide)⟩

/-- C3: the orchestrator is a deterministic pure function of its arguments —
two runs on equal record lists and equal budgets give byte-identical output. -/
theorem c3_deterministic :
    ∀ (logs1 logs2 : List Log) (b1 b2 m1 m2 : Nat),
      logs1 = logs2 → b1 = b2 → m1 = m2 →
      multilevel_chunk_logs logs1 b1 m1 = multilevel_chunk_logs logs2 b2 m2 := by
  intro logs1 logs2 b1 b2 m1 m2 h1 h2 h3
  rw [h1, h2, h3]

theorem c3_witness :
    multilevel_chunk_logs [⟨some (pys "d"), some (pys "fatal crash in pod")⟩] 40 2 =
      multilevel_chunk_logs [⟨some (pys "d"), some (pys "fatal crash in pod")⟩] 40 2 :=
  c3_deterministic _ _ _ _ _ _ rfl rfl rfl

/-- C1 counterexample: at `max_records = 0` the orchestrator returns the
3-character sentinel `"N/A"`, exceeding the claimed bound
`max_records × (max_chars_per_record + header_overhead + marker_overhead) = 0`. -/
theorem c1_counterexample :
    ¬ ((multilevel_chunk_logs [⟨some (pys "log1"), some (pys "ERROR: disk full")⟩] 100 0).length ≤
        0 * (100 + ((pys "log1").length + 9 + 2) + 3)) := by
  decide

/-- C1 (amended): for every record list and budget with `max_records ≥ 1`, if
every record filename has length at most `F`, the orchestrator's output length is at
most `max_records × (max_chars_per_record + header_overhead + marker_overhead)`
with `header_overhead = F + 9 + 2` (the `=== name ===` line with its newline
plus the blank-line join) and `marker_overhead = 3` (the `...` marker); and no
single record's contribution, excluding its header, ever exceeds
`max_chars_per_record + 3`.  At `max_records = 0` the output is the sentinel
`"N/A"` of length 3 instead. -/
theorem c1_amended_budget_bound :
    (∀ (logs : List Log) (b m F : Nat), 1 ≤ m →
      (∀ log ∈ logs, (log.filename.getD (pys "unknown")).length ≤ F) →
      (multilevel_chunk_logs logs b m).length ≤ m * (b + (F + 9 + 2) + 3)) ∧
    (∀ (b : Nat) (ct : PyStr), (optimizedOf b ct).length ≤ b + 3) := by
  constructor
  · intro logs b m F hm hF
    by_cases h0 : logs = []
    · subst h0
      have hval : multilevel_chunk_logs [] b m = pys "N/A" := rfl
      rw [hval]
      have h3 : (pys "N/A").length = 3 := rfl
      have hge : b + (F + 9 + 2) + 3 ≤ m * (b + (F + 9 + 2) + 3) :=
        Nat.le_mul_of_pos_left _ hm
      omega
    · simp only [multilevel_chunk_logs, if_neg h0]
      by_cases hc : (logs.take m).filterMap (chunkOne b) = []
      · rw [if_pos hc]
        have h3 : (pys "N/A").length = 3 := rfl
        have hge : b + (F + 9 + 2) + 3 ≤ m * (b + (F + 9 + 2) + 3) :=
          Nat.le_mul_of_pos_left _ hm
        omega
      · rw [if_neg hc]
        have hsep : (pys "\n\n").length = 2 := rfl
        have helem : ∀ x ∈ (logs.take m).filterMap (chunkOne b), x.length ≤ b + F + 12 := by
          intro x hx
          obtain ⟨log, hlog, hcx⟩ := List.mem_filterMap.mp hx
          have hlen := chunkOne_len b log x hcx
          have hfn : (log.filename.getD (pys "unknown")).length ≤ F :=
            hF log (List.take_subset m logs hlog)
          omega
        have hj := joinSep_len_le (pys "\n\n") (b + F + 12) _ helem
        have hcount : ((logs.take m).filterMap (chunkOne b)).length ≤ m := by
          calc ((logs.take m).filterMap (chunkOne b)).length
              ≤ (logs.take m).length := List.length_filterMap_le _ _
            _ ≤ m := List.length_take_le _ _
        rw [hsep] at hj
        calc (joinSep (pys "\n\n") ((logs.take m).filterMap (chunkOne b))).length
            ≤ ((logs.take m).filterMap (chunkOne b)).length * (b + F + 12 + 2) := hj
          _ ≤ m * (b + F + 12 + 2) := Nat.mul_le_mul_right _ hcount
          _ = m * (b + (F + 9 + 2) + 3) := by ring
  · intro b ct
    exact optimizedOf_le b ct

theorem c1_witness :
    1 ≤ 1 ∧
      (multilevel_chunk_logs [⟨some (pys "app"), some (pys "ERROR: disk full")⟩] 50 1).length ≤
        1 * (50 + (3 + 9 + 2) + 3) :=
  ⟨by decide,
   c1_amended_budget_bound.1 [⟨some (pys "app"), some (pys "ERROR: disk full")⟩] 50 1 3
     (by decide) (by decide)⟩

/-- C2: the orchestrator always returns a string (it is a total function by
construction); the empty record list yields the sentinel `"N/A"`, and so does
any input in which no record contributes a block. -/
theorem c2_total_and_sentinel :
    (∀ (b m : Nat), multilevel_chunk_logs [] b m = pys "N/A") ∧
    (∀ (logs : List Log) (b m : Nat),
      (∀ log ∈ logs.take m, chunkOne b log = none) →
      multilevel_chunk_logs logs b m = pys "N/A") := by
  constructor
  · intro b m
    rfl
  · intro logs b m h
    by_cases h0 : logs = []
    · subst h0
      rfl
    · simp only [multilevel_chunk_logs, if_neg h0]
      rw [if_pos (List.filterMap_eq_nil_iff.mpr h)]

theorem c2_witness :
    (∀ log ∈ ([⟨some (pys "w"), some (pys "hi")⟩] : List Log).take 4, chunkOne 7 log = none) ∧
      multilevel_chunk_logs [⟨some (pys "w"), some (pys "hi")⟩] 7 4 = pys "N/A" :=
  ⟨by decide, c2_total_and_sentinel.2 [⟨some (pys "w"), some (pys "hi")⟩] 7 4 (by decide)⟩

/-- C4 counterexample: for the record `"error\nerror\nerror"` the compression
stage returns the empty string (every line is under 11 characters), no
fallback replaces it, and the record contributes no block: the orchestrator
returns `"N/A"` instead of a truncated block. -/
theorem c4_counterexample :
    level3_compress_and_summarize (stage2Out 1200 (pys "error\nerror\nerror"))
        ((1200 * 3) / 2) = [] ∧
      multilevel_chunk_logs [⟨some (pys "pod.log"), some (pys "error\nerror\nerror")⟩] 1200 3 =
        pys "N/A" := by
  constructor <;> decide

/-- C4 (amended): the orchestrator substitutes fallbacks only for the first
two stages — if extraction yields no fragments it uses the whole text (or a
head and a tail slice of budget size when the text exceeds twice the budget)
as fragments; an empty result of the compression/noise-stripping stages is
not replaced: a record whose final optimized text is empty contributes no
block at all. -/
theorem c4_amended_fallbacks :
    ∀ (b : Nat) (fn ct : PyStr),
      (¬(ct = [] ∨ (strip ct).length < 10) →
        (chunkOne b ⟨some fn, some ct⟩ = none ↔ optimizedOf b ct = [])) ∧
      (level1_extract_critical_content (splitNL ct) semantic_error_patterns = [] →
        ct.length ≤ b * 2 → stage1Frags b ct = [(0, ct)]) ∧
      (level1_extract_critical_content (splitNL ct) semantic_error_patterns = [] →
        b * 2 < ct.length →
        stage1Frags b ct = [(0, ct.take b), ((splitNL ct).length, pySliceLast b ct)]) := by
  intro b fn ct
  refine ⟨?_, ?_, ?_⟩
  · intro h
    simp only [chunkOne, Option.getD_some, if_neg h]
    by_cases h2 : optimizedOf b ct = []
    · simp [h2]
    · simp [h2]
  · intro h1 h2
    simp only [stage1Frags, h1, if_pos]
    rw [if_neg (by omega : ¬ b * 2 < ct.length)]
  · intro h1 h2
    simp only [stage1Frags, h1, if_pos]
    rw [if_pos h2]

theorem c4_witness :
    (¬(pys "OOM failure!!" = [] ∨ (strip (pys "OOM failure!!")).length < 10)) ∧
      (chunkOne 5 ⟨some (pys "f"), some (pys "OOM failure!!")⟩ = none ↔
        optimizedOf 5 (pys "OOM failure!!") = []) ∧
      stage1Frags 9 (pys "hello windy") = [(0, pys "hello windy")] ∧
      stage1Frags 3 (pys "abcdefgh ijklmnop") =
        [(0, (pys "abcdefgh ijklmnop").take 3),
         ((splitNL (pys "abcdefgh ijklmnop")).length, pySliceLast 3 (pys "abcdefgh ijklmnop"))] :=
  ⟨by decide,
   (c4_amended_fallbacks 5 (pys "f") (pys "OOM failure!!")).1 (by decide),
   (c4_amended_fallbacks 9 (pys "x") (pys "hello windy")).2.1 (by decide) (by decide),
   (c4_amended_fallbacks 3 (pys "x") (pys "abcdefgh ijklmnop")).2.2 (by decide) (by decide)⟩

/-- C5 counterexample: the record `"OOM error!"` (one critical line of 10
characters, far below the budget) loses its critical line: the compressor's
under-11-characters noise filter drops it, and the orchestrator returns
`"N/A"` — the line is dropped even though it is no duplicate. -/
theorem c5_counterexample :
    multilevel_chunk_logs [⟨some (pys "app.log"), some (pys "OOM error!")⟩] 1200 3 =
        pys "N/A" ∧
      containsSub (pys "OOM error!")
        (multilevel_chunk_logs [⟨some (pys "app.log"), some (pys "OOM error!")⟩] 1200 3) =
        false := by
  constructor <;> decide

/-- C5 (amended): when the joined deduplicated content fits the compressor's
budget, every line of every prioritized fragment whose stripped form is
longer than 10 characters survives into the compressor's `unique_lines` up to
deduplication by lowercased 100-character prefix, and the compressor returns
the joined lines unspliced; lines of 10 or fewer characters are dropped by
the compressor's noise filter, and only fragments that survive the
prioritizer's top-20 cut reach the compressor at all. -/
theorem c5_amended_no_loss :
    ∀ (contents : List PyStr) (max_length : Nat) (c l : PyStr),
      c ∈ contents → l ∈ splitNL c → 10 < (strip l).length →
      (joinNL (uniqueLines contents)).length ≤ max_length →
      (∃ k, k ∈ uniqueLines contents ∧
          (lowerStr k).take 100 = (lowerStr (strip l)).take 100) ∧
        level3_compress_and_summarize contents max_length =
          joinNL (uniqueLines contents) := by
  intro contents maxLen c l hc hl hlen hbud
  constructor
  · have hmem : strip l ∈
        ((contents.flatMap splitNL).map strip).filter (fun s => decide (10 < s.length)) := by
      apply List.mem_filter.mpr
      constructor
      · exact List.mem_map_of_mem _ (List.mem_flatMap.mpr ⟨c, hc, hl⟩)
      · simp [hlen]
    obtain ⟨k, hk1, hk2⟩ := dedupSpec_covers key100 _ (strip l) hmem
    rw [uniqueLines_eq]
    exact ⟨k, hk1, hk2⟩
  · have hne : contents ≠ [] := fun h => by subst h; cases hc
    simp only [level3_compress_and_summarize, if_neg hne]
    rw [if_neg (by omega : ¬ maxLen < (joinNL (uniqueLines contents)).length)]

theorem c5_witness :
    (joinNL (uniqueLines [pys "ERROR something bad"])).length ≤ 100 ∧
      (∃ k, k ∈ uniqueLines [pys "ERROR something bad"] ∧
          (lowerStr k).take 100 = (lowerStr (strip (pys "ERROR something bad"))).take 100) ∧
        level3_compress_and_summarize [pys "ERROR something bad"] 100 =
          joinNL (uniqueLines [pys "ERROR something bad"]) :=
  ⟨by decide,
   c5_amended_no_loss [pys "ERROR something bad"] 100 (pys "ERROR something bad")
     (pys "ERROR something bad") (by decide) (by decide) (by decide) (by decide)⟩

/-- C9 counterexample: a record with a missing `filename` is not treated as an
empty-text record — it still contributes a block, headed `=== unknown ===`. -/
theorem c9_counterexample :
    multilevel_chunk_logs [⟨none, some (pys "ERROR: disk full")⟩] 1200 3 =
      pys "=== unknown ===\nERROR: disk full" := by
  decide

/-- C9 (amended): a record with a missing `content` key contributes nothing
(and a lone such record makes the orchestrator return `"N/A"`), but a record
with a missing `filename` key is processed exactly like one whose filename is
the string `"unknown"` — it is not skipped. -/
theorem c9_amended_missing_fields :
    ∀ (b m : Nat) (f ct : Option PyStr),
      chunkOne b ⟨f, none⟩ = none ∧
      chunkOne b ⟨none, ct⟩ = chunkOne b ⟨some (pys "unknown"), ct⟩ ∧
      multilevel_chunk_logs [⟨f, none⟩] b m = pys "N/A" := by
  intro b m f ct
  refine ⟨?_, rfl, ?_⟩
  · simp [chunkOne]
  · simp only [multilevel_chunk_logs]
    rw [if_neg (by simp : ([⟨f, none⟩] : List Log) ≠ [])]
    rw [if_pos]
    apply List.filterMap_eq_nil_iff.mpr
    intro a ha
    have hmem : a ∈ ([⟨f, none⟩] : List Log) := List.take_subset m _ ha
    have hae : a = ⟨f, none⟩ := by simpa using hmem
    rw [hae]
    simp [chunkOne]

/-- C10: a record whose content, after stripping whitespace, is shorter than
10 characters — including non-empty critical text such as `"OOM"` — is
skipped entirely by the orchestrator, regardless of the budget: it
contributes no block, and a lone such record yields `"N/A"`. -/
theorem c10_short_content_skipped :
    ∀ (b m : Nat) (f : Option PyStr) (ct : PyStr),
      (strip ct).length < 10 →
      chunkOne b ⟨f, some ct⟩ = none ∧
        multilevel_chunk_logs [⟨f, some ct⟩] b m = pys "N/A" := by
  intro b m f ct h
  have hnone : chunkOne b ⟨f, some ct⟩ = none := by
    simp only [chunkOne, Option.getD_some]
    rw [if_pos (Or.inr h)]
  refine ⟨hnone, ?_⟩
  simp only [multilevel_chunk_logs]
  rw [if_neg (by simp : ([⟨f, some ct⟩] : List Log) ≠ [])]
  rw [if_pos]
  apply List.filterMap_eq_nil_iff.mpr
  intro a ha
  have hmem : a ∈ ([⟨f, some ct⟩] : List Log) := List.take_subset m _ ha
  have hae : a = ⟨f, some ct⟩ := by simpa using hmem
  rw [hae]
  exact hnone

theorem c10_witness :
    (strip (pys "OOM")).length < 10 ∧
      chunkOne 1200 ⟨some (pys "k.log"), some (pys "OOM")⟩ = none ∧
        multilevel_chunk_logs [⟨some (pys "k.log"), some (pys "OOM")⟩] 1200 5 = pys "N/A" :=
  ⟨by decide, c10_short_content_skipped 1200 5 (some (pys "k.log")) (pys "OOM") (by decide)⟩
